import Mathlib

/-!
# Shallow embedding of `src/journal.c` (vsfs write-ahead journal)

The backing image is modelled as a byte-addressed disk `Disk := Nat → Nat`;
a byte is always consumed modulo 256, and every write stores values modulo
256, matching the `uint8_t` view the C code has of the image.  Multi-byte
integer fields (`uint16_t` / `uint32_t`) are read and written little-endian,
as on the x86 targets the program is written for, and 32-bit arithmetic that
can wrap (`off += rec.size` on a `uint32_t`) is taken modulo 2^32.

`create_journal` is modelled as the list of journal writes it performs
(`createWrites`), folded over the disk by `create`; the in-memory block
buffers it mutates are pure functions captured from the *initial* disk,
exactly as the C code reads them once up front.  `install_journal` is a
fueled interpreter (`install` / `installLoop` / `scanTx` / `applyRecs`):
the C loops have no a-priori bound (a record whose size field is zero makes
them spin), so each loop consumes fuel and returns `none` when the fuel runs
out; `none` for every fuel is non-termination of the C loop.

One modelling choice for undefined C behaviour: when `install_journal`
applies a record whose size field is smaller than `sizeof(struct
data_record)`, the C code reads only `size` bytes into a stack-allocated
`struct data_record` and the remaining bytes are indeterminate; the model
takes those indeterminate bytes to be zero (`drByte`).  No claim below is
decided by that choice: every counterexample uses either full-size records
or bytes the C code genuinely copies from the journal.
-/

namespace Vsfs

/-- BLOCK_SIZE from journal.c -/
def BLOCK_SIZE : Nat := 4096

/-- INODE_SIZE from journal.c -/
def INODE_SIZE : Nat := 128

/-- JOURNAL_BLOCK_IDX from journal.c -/
def JOURNAL_BLOCK_IDX : Nat := 1

/-- JOURNAL_BLOCKS from journal.c -/
def JOURNAL_BLOCKS : Nat := 16

/-- INODE_BLOCKS from journal.c -/
def INODE_BLOCKS : Nat := 2

/-- DATA_BLOCKS from journal.c -/
def DATA_BLOCKS : Nat := 64

/-- INODE_BMAP_IDX = 17 -/
def INODE_BMAP_IDX : Nat := JOURNAL_BLOCK_IDX + JOURNAL_BLOCKS

/-- DATA_BMAP_IDX = 18 -/
def DATA_BMAP_IDX : Nat := INODE_BMAP_IDX + 1

/-- INODE_START_IDX = 19 -/
def INODE_START_IDX : Nat := DATA_BMAP_IDX + 1

/-- DATA_START_IDX = 21 -/
def DATA_START_IDX : Nat := INODE_START_IDX + INODE_BLOCKS

/-- TOTAL_BLOCKS = 85 -/
def TOTAL_BLOCKS : Nat := DATA_START_IDX + DATA_BLOCKS

/-- JOURNAL_MAGIC from journal.c -/
def JOURNAL_MAGIC : Nat := 0x4A524E4C

/-- record type tag of a Data record -/
def REC_DATA : Nat := 1

/-- record type tag of a Commit record -/
def REC_COMMIT : Nat := 2

/-- 2^32, the modulus of uint32_t arithmetic -/
def U32M : Nat := 4294967296

/-- absolute byte offset of the journal region (and its header):
`JOURNAL_BLOCK_IDX * BLOCK_SIZE` -/
def JOFF : Nat := JOURNAL_BLOCK_IDX * BLOCK_SIZE

/-- size in bytes of the journal region (16 blocks) -/
def JSIZE : Nat := JOURNAL_BLOCKS * BLOCK_SIZE

/-- sizeof(struct dirent) = 32 -/
def DIRENT_SIZE : Nat := 32

/-- sizeof(struct data_record) = 4 + 4 + 4096; this is the value stored in
a Data record's size field -/
def DATA_REC_SIZE : Nat := 4 + 4 + BLOCK_SIZE

/-- sizeof(struct commit_record) = 4 -/
def COMMIT_REC_SIZE : Nat := 4

/-- the byte-addressed backing image -/
def Disk : Type := Nat → Nat

/-- the byte stored at absolute offset `i` -/
def byteAt (d : Disk) (i : Nat) : Nat := d i % 256

/-- little-endian uint16 at absolute offset `o` -/
def readU16 (d : Disk) (o : Nat) : Nat := byteAt d o + 256 * byteAt d (o + 1)

/-- little-endian uint32 at absolute offset `o` -/
def readU32 (d : Disk) (o : Nat) : Nat :=
  byteAt d o + 256 * byteAt d (o + 1) + 65536 * byteAt d (o + 2) +
    16777216 * byteAt d (o + 3)

/-- byte `j` of the little-endian encoding of `v` -/
def leByte (v j : Nat) : Nat := v / 256 ^ j % 256

/-- overwrite `len` bytes starting at absolute offset `start` with the bytes
of the buffer `f` (indexed from 0) -/
def writeSeg (d : Disk) (start len : Nat) (f : Nat → Nat) : Disk :=
  fun i => if start ≤ i ∧ i < start + len then f (i - start) % 256 else d i

/-- the in-memory image of block `b`, as read by `read_block` -/
def blockBuf (d : Disk) (b : Nat) : Nat → Nat :=
  fun j => byteAt d (b * BLOCK_SIZE + j)

/-- little-endian uint16 at offset `o` of an in-memory buffer -/
def bufU16 (b : Nat → Nat) (o : Nat) : Nat := b o % 256 + 256 * (b (o + 1) % 256)

/-- little-endian uint32 at offset `o` of an in-memory buffer -/
def bufU32 (b : Nat → Nat) (o : Nat) : Nat :=
  b o % 256 + 256 * (b (o + 1) % 256) + 65536 * (b (o + 2) % 256) +
    16777216 * (b (o + 3) % 256)

/-! ## Allocators (`free_inode`, `free_dirent`, `set_bitmap`) -/

/-- `free_inode`: first clear bit among `INODE_BLOCKS * (BLOCK_SIZE /
INODE_SIZE)` = 64 bits of the inode bitmap, or `none` (C returns -1) -/
def free_inode (bmap : Nat → Nat) : Option Nat :=
  (List.range (INODE_BLOCKS * (BLOCK_SIZE / INODE_SIZE))).find?
    (fun i => !(Nat.testBit (bmap (i / 8)) (i % 8)))

/-- `free_dirent`: first of the `BLOCK_SIZE / sizeof(struct dirent)` = 128
slots whose name's first byte (offset 4 of the slot) is 0, or `none` -/
def free_dirent (blk : Nat → Nat) : Option Nat :=
  (List.range (BLOCK_SIZE / DIRENT_SIZE)).find?
    (fun i => blk (DIRENT_SIZE * i + 4) == 0)

/-- `set_bitmap`: set bit `idx` in the bitmap buffer -/
def set_bitmap (bmap : Nat → Nat) (idx : Nat) : Nat → Nat :=
  fun j => if j = idx / 8 then bmap j ||| (1 <<< (idx % 8)) else bmap j

/-! ## The create transaction (`create_journal`) -/

/-- the characters `strncpy` actually copies: the C string stops at its
first NUL byte -/
def effName (name : List Nat) : List Nat := name.takeWhile (fun c => c != 0)

/-- store `{ inode = idx, name = file_name }` into directory slot `slot`:
4 bytes of inode index, then `strncpy(name, file_name, 27)` — at most 27
bytes copied, NUL-padded up to 27; byte 27 of the name field (the slot's
last byte) is not written by the C code -/
def writeDirent (blk : Nat → Nat) (slot idx : Nat) (name : List Nat) :
    Nat → Nat :=
  fun j =>
    if DIRENT_SIZE * slot ≤ j ∧ j < DIRENT_SIZE * slot + 4 then
      leByte idx (j - DIRENT_SIZE * slot)
    else if DIRENT_SIZE * slot + 4 ≤ j ∧ j < DIRENT_SIZE * slot + 4 + 27 then
      (effName name).getD (j - (DIRENT_SIZE * slot + 4)) 0
    else blk j

/-- the byte image of the freshly created inode: memset to 0, then
type = 1, links = 1, ctime = mtime = t (size and direct pointers stay 0) -/
def newInodeBytes (t : Nat) : Nat → Nat :=
  fun j =>
    if j < 2 then leByte 1 j
    else if j < 4 then leByte 1 (j - 2)
    else if j < 40 then 0
    else if j < 44 then leByte t (j - 40)
    else if j < 48 then leByte t (j - 44)
    else 0

/-- overwrite inode slot `k` of an inode-table block buffer with the new
inode's bytes -/
def writeInode (blk : Nat → Nat) (k t : Nat) : Nat → Nat :=
  fun j => if INODE_SIZE * k ≤ j ∧ j < INODE_SIZE * k + INODE_SIZE then
    newInodeBytes t (j - INODE_SIZE * k) else blk j

/-- `if (root_ino->size < needed) root_ino->size = needed` on the slot-0
inode of the loaded table block (offset 4 is the size field) -/
def growRootSize (blk : Nat → Nat) (needed : Nat) : Nat → Nat :=
  if bufU32 blk 4 < needed then
    fun j => if 4 ≤ j ∧ j < 8 then leByte needed (j - 4) else blk j
  else blk

/-- the inode-table block buffer exactly as `create_journal` logs it:
block `INODE_START_IDX + idx / 32` is loaded, inode slot `idx % 32` is
overwritten with the new inode, then the slot-0 inode's size is grown to
`(slot + 1) * sizeof(struct dirent)` if smaller -/
def inoBufAfter (d : Disk) (idx slot t : Nat) : Nat → Nat :=
  growRootSize
    (writeInode (blockBuf d (INODE_START_IDX + idx / (BLOCK_SIZE / INODE_SIZE)))
      (idx % (BLOCK_SIZE / INODE_SIZE)) t)
    ((slot + 1) * DIRENT_SIZE)

/-- one `journal_write(fd, off, buf, len)`: journal-relative offset, length,
and the buffer written -/
structure JWrite where
  off : Nat
  len : Nat
  dat : Nat → Nat

/-- perform one journal write on the disk -/
def applyJWrite (d : Disk) (w : JWrite) : Disk :=
  writeSeg d (JOFF + w.off) w.len w.dat

/-- perform a sequence of journal writes, first element first -/
def applyJWrites (d : Disk) (ws : List JWrite) : Disk :=
  ws.foldl applyJWrite d

/-- the bytes of a Data record: {type = REC_DATA, size = 4104}, the target
block number, then the full 4096-byte block image -/
def dataRecBytes (blockNo : Nat) (buf : Nat → Nat) : Nat → Nat :=
  fun j =>
    if j < 2 then leByte REC_DATA j
    else if j < 4 then leByte DATA_REC_SIZE (j - 2)
    else if j < 8 then leByte blockNo (j - 4)
    else buf (j - 8)

/-- the bytes of a Commit record: {type = REC_COMMIT, size = 4} -/
def commitRecBytes : Nat → Nat :=
  fun j => if j < 2 then leByte REC_COMMIT j else leByte COMMIT_REC_SIZE (j - 2)

/-- the bytes of the journal header {magic, nbytes_used}; the code always
writes `JOURNAL_MAGIC` into the magic field -/
def headerBytes (nbu : Nat) : Nat → Nat :=
  fun j => if j < 4 then leByte JOURNAL_MAGIC j else leByte nbu (j - 4)

/-- the offset at which `create_journal` starts appending: the header's
`nbytes_used` if the magic matches, else the journal is treated as empty
and the offset is `sizeof(struct journal_header)` = 8 -/
def effOff (d : Disk) : Nat :=
  if readU32 d JOFF = JOURNAL_MAGIC then readU32 d (JOFF + 4) else 8

/-- `off += dr.hdr.size` on the uint32 append offset -/
def nextOff (off : Nat) : Nat := (off + DATA_REC_SIZE) % U32M

/-- the `for (i = 0; i < 4; i++)` loop of `create_journal`: append one Data
record per (target, buffer) pair, advancing the uint32 offset by the
record size; returns the final offset and the writes in order -/
def logDataRecs : Nat → List (Nat × (Nat → Nat)) → Nat × List JWrite
  | off, [] => (off, [])
  | off, (bno, buf) :: rest =>
    let next := logDataRecs (nextOff off) rest
    (next.1, ⟨off, DATA_REC_SIZE, dataRecBytes bno buf⟩ :: next.2)

/-- `create_journal` as the list of journal writes it performs, or `none`
when an allocator is exhausted and the function returns without writing.
The four Data records carry the mutated inode bitmap, the (unmodified)
data bitmap, the mutated root directory block and the mutated inode table
block, in that order; then the Commit record; then the header with
`nbytes_used` advanced past the Commit record -/
def createWrites (d : Disk) (name : List Nat) (t : Nat) : Option (List JWrite) :=
  let ibmap := blockBuf d INODE_BMAP_IDX
  let root_data := blockBuf d DATA_START_IDX
  match free_inode ibmap, free_dirent root_data with
  | some inode_idx, some slot =>
    let ibmap' := set_bitmap ibmap inode_idx
    let root' := writeDirent root_data slot inode_idx name
    let iblk_no := INODE_START_IDX + inode_idx / (BLOCK_SIZE / INODE_SIZE)
    let ino' := inoBufAfter d inode_idx slot t
    let off0 := effOff d
    let recs := logDataRecs off0
      [(INODE_BMAP_IDX, ibmap'), (DATA_BMAP_IDX, blockBuf d DATA_BMAP_IDX),
       (DATA_START_IDX, root'), (iblk_no, ino')]
    some (recs.2 ++
      [⟨recs.1, COMMIT_REC_SIZE, commitRecBytes⟩,
       ⟨0, 8, headerBytes ((recs.1 + COMMIT_REC_SIZE) % U32M)⟩])
  | _, _ => none

/-- `create_journal` as a disk transformer: apply the journal writes, or
leave the disk untouched when the transaction is aborted -/
def create (d : Disk) (name : List Nat) (t : Nat) : Disk :=
  match createWrites d name t with
  | none => d
  | some ws => applyJWrites d ws

/-! ## The installer (`install_journal`) -/

/-- result of the record walk of one candidate transaction -/
inductive ScanResult where
  | commit (tEnd : Nat)
  | noCommit
  | outOfFuel
deriving DecidableEq, Repr

/-- the inner `while (tx_off < jh.nbytes_used)` walk of `install_journal`:
read the {type, size} prefix at `tx_off`, advance by `size` (uint32
arithmetic), stop when a Commit record is consumed or the position reaches
`nbytes_used`.  A zero-size non-commit record leaves `tx_off` unchanged, so
the C loop can spin; the fuel makes that observable as `outOfFuel` -/
def scanTx (d : Disk) (nbu : Nat) : Nat → Nat → ScanResult
  | fuel, tx_off =>
    if tx_off < nbu then
      match fuel with
      | 0 => .outOfFuel
      | fuel + 1 =>
        let ty := readU16 d (JOFF + tx_off)
        let sz := readU16 d (JOFF + tx_off + 2)
        if ty = REC_COMMIT then .commit ((tx_off + sz) % U32M)
        else scanTx d nbu fuel ((tx_off + sz) % U32M)
    else .noCommit

/-- the `struct data_record` stack buffer after `journal_read(fd, off, &dr,
sz)`: the first `min sz 4104` bytes come from the journal, the rest of the
struct is unread (modelled as zero, see the header comment) -/
def drByte (d : Disk) (off sz : Nat) : Nat → Nat :=
  fun j => if j < min sz DATA_REC_SIZE then byteAt d (JOFF + off + j) else 0

/-- `dr.block_no`: bytes 4..7 of the record buffer, little-endian -/
def recBlockNo (d : Disk) (off sz : Nat) : Nat :=
  bufU32 (drByte d off sz) 4

/-- the `while (apply_off < tx_off)` loop: re-read each record prefix,
apply Data records by overwriting their target block with `dr.data`
(bytes 8..4103 of the record buffer), skip other records -/
def applyRecs : Nat → Disk → Nat → Nat → Option Disk
  | fuel, d, apply_off, tx_off =>
    if apply_off < tx_off then
      match fuel with
      | 0 => none
      | fuel + 1 =>
        let ty := readU16 d (JOFF + apply_off)
        let sz := readU16 d (JOFF + apply_off + 2)
        let d' := if ty = REC_DATA then
            writeSeg d (recBlockNo d apply_off sz * BLOCK_SIZE) BLOCK_SIZE
              (fun j => drByte d apply_off sz (8 + j))
          else d
        applyRecs fuel d' ((apply_off + sz) % U32M) tx_off
    else some d

/-- the outer `while` of `install_journal`: while positions remain and the
commit cap (negative = unbounded) is not reached, scan one transaction;
stop cleanly if it has no commit, otherwise apply it and continue past it -/
def installLoop (cap : Int) (nbu : Nat) :
    Nat → Disk → Nat → Nat → Option (Disk × Nat)
  | fuel, d, off, committed =>
    if off < nbu ∧ (cap < 0 ∨ (committed : Int) < cap) then
      match fuel with
      | 0 => none
      | fuel + 1 =>
        match scanTx d nbu (fuel + 1) off with
        | .outOfFuel => none
        | .noCommit => some (d, committed)
        | .commit tEnd =>
          match applyRecs (fuel + 1) d off tEnd with
          | none => none
          | some d' => installLoop cap nbu fuel d' tEnd (committed + 1)
    else some (d, committed)

/-- `install_journal(max_commits)`: read the header; if the magic is wrong
or `nbytes_used <= 8` return with no write; otherwise run the loop from
offset 8 and finally rewrite the header with `nbytes_used = 8`.  Returns
the final disk and the number of transactions applied, or `none` when the
fuel ran out (the C loops spin forever) -/
def install (fuel : Nat) (cap : Int) (d : Disk) : Option (Disk × Nat) :=
  if readU32 d JOFF ≠ JOURNAL_MAGIC ∨ readU32 d (JOFF + 4) ≤ 8 then
    some (d, 0)
  else
    match installLoop cap (readU32 d (JOFF + 4)) fuel d 8 0 with
    | none => none
    | some (d', c) => some (writeSeg d' JOFF 8 (headerBytes 8), c)

/-- install terminates (for some fuel the interpreter finishes) -/
def installTerminates (cap : Int) (d : Disk) : Prop :=
  ∃ fuel, install fuel cap d ≠ none

/-- the byte at absolute offset `i` after a (terminating) install run -/
def afterByte (r : Option (Disk × Nat)) (i : Nat) : Option Nat :=
  r.map (fun p => byteAt p.1 i)

/-- the little-endian uint32 at absolute offset `o` after a run -/
def afterU32 (r : Option (Disk × Nat)) (o : Nat) : Option Nat :=
  r.map (fun p => readU32 p.1 o)

/-! ## Concrete images used by witnesses and counterexamples -/

/-- a freshly formatted image: everything zero except the journal header
(valid magic, nbytes_used = 8) -/
def dFmt : Disk := fun i =>
  if i = 4096 then 76 else if i = 4097 then 78 else if i = 4098 then 82
  else if i = 4099 then 74 else if i = 4100 then 8 else 0

/-- valid magic but nbytes_used = 0: install returns at once and leaves the
header's nbytes_used below the header size -/
def dBadNbu : Disk := fun i =>
  if i = 4096 then 76 else if i = 4097 then 78 else if i = 4098 then 82
  else if i = 4099 then 74 else 0

/-- valid magic, nbytes_used = 16, and at offset 8 a record with type =
REC_DATA and size = 0: the scan of `install_journal` never advances -/
def dZeroRec : Disk := fun i =>
  if i = 4096 then 76 else if i = 4097 then 78 else if i = 4098 then 82
  else if i = 4099 then 74 else if i = 4100 then 16
  else if i = 4104 then 1 else 0

/-- valid magic, nbytes_used = 12, one commit-only transaction at offset 8 -/
def dOneTx : Disk := fun i =>
  if i = 4096 then 76 else if i = 4097 then 78 else if i = 4098 then 82
  else if i = 4099 then 74 else if i = 4100 then 12
  else if i = 4104 then 2 else if i = 4106 then 4 else 0

/-- base image for the noninterference counterexample: nbytes_used = 21, a
Data record of size 12 at offset 8 targeting block 30, and a Commit record
of size 4 at offset 20 whose type field's high byte sits at offset 21 =
nbytes_used; block 30's first byte is 7 -/
def dStraddleA : Disk := fun i =>
  if i = 4096 then 76 else if i = 4097 then 78 else if i = 4098 then 82
  else if i = 4099 then 74 else if i = 4100 then 21
  else if i = 4104 then 1 else if i = 4106 then 12
  else if i = 4108 then 30
  else if i = 4116 then 2 else if i = 4118 then 4
  else if i = 122880 then 7 else 0

/-- same image except the byte at journal offset 21 (the first offset at or
past nbytes_used) is 1 instead of 0 -/
def dStraddleB : Disk := fun i => if i = 4117 then 1 else dStraddleA i

/-- a formatted image whose root inode (inode 0, table block 19) already
records size 320, while inode bitmap bit 0 is still free -/
def dRootSz : Disk := fun i =>
  if i = 77828 then 64 else if i = 77829 then 1 else dFmt i

/-- a formatted image whose root directory slot 0 is free (name[0] = 0) but
whose name field still holds a stale last byte: name[27] = 9 -/
def dStale : Disk := fun i => if i = 86047 then 9 else dFmt i

/-- a formatted image with the inode bitmap completely full -/
def dFullBmap : Disk := fun i =>
  if 69632 ≤ i ∧ i < 69640 then 255 else dFmt i

/-- a formatted image with inode 0 already allocated in the bitmap -/
def dBit0 : Disk := fun i => if i = 69632 then 1 else dFmt i

/-- valid magic, nbytes_used = 4112, one Data record of size 4104 at offset
8 and no Commit record: an incomplete trailing transaction -/
def dNoCommit : Disk := fun i =>
  if i = 4096 then 76 else if i = 4097 then 78 else if i = 4098 then 82
  else if i = 4099 then 74 else if i = 4100 then 16 else if i = 4101 then 16
  else if i = 4104 then 1 else if i = 4106 then 8 else if i = 4107 then 16
  else 0

/-! ## Basic byte-level lemmas -/

theorem byteAt_lt (d : Disk) (i : Nat) : byteAt d i < 256 :=
  Nat.mod_lt _ (by norm_num)

theorem readU16_lt (d : Disk) (o : Nat) : readU16 d o < 65536 := by
  have h1 := byteAt_lt d o
  have h2 := byteAt_lt d (o + 1)
  unfold readU16
  omega

theorem writeSeg_outside {s l i : Nat} (d : Disk) (f : Nat → Nat)
    (h : i < s ∨ s + l ≤ i) : writeSeg d s l f i = d i := by
  unfold writeSeg
  have hc : ¬(s ≤ i ∧ i < s + l) := by omega
  rw [if_neg hc]

theorem byteAt_writeSeg_outside {s l i : Nat} (d : Disk) (f : Nat → Nat)
    (h : i < s ∨ s + l ≤ i) : byteAt (writeSeg d s l f) i = byteAt d i := by
  unfold byteAt
  rw [writeSeg_outside d f h]

theorem byteAt_writeSeg_inside {s l i : Nat} (d : Disk) (f : Nat → Nat)
    (h1 : s ≤ i) (h2 : i < s + l) :
    byteAt (writeSeg d s l f) i = f (i - s) % 256 := by
  unfold byteAt writeSeg
  rw [if_pos ⟨h1, h2⟩]
  omega

/-! ## One-step unfolding equations for the fueled interpreters -/

theorem scanTx_zero (d : Disk) (nbu off : Nat) :
    scanTx d nbu 0 off =
      if off < nbu then .outOfFuel else .noCommit := rfl

theorem scanTx_succ (d : Disk) (nbu fuel off : Nat) :
    scanTx d nbu (fuel + 1) off =
      if off < nbu then
        (if readU16 d (JOFF + off) = REC_COMMIT then
          .commit ((off + readU16 d (JOFF + off + 2)) % U32M)
        else scanTx d nbu fuel ((off + readU16 d (JOFF + off + 2)) % U32M))
      else .noCommit := rfl

theorem applyRecs_zero (d : Disk) (a t : Nat) :
    applyRecs 0 d a t = if a < t then none else some d := rfl

theorem applyRecs_succ (fuel : Nat) (d : Disk) (a t : Nat) :
    applyRecs (fuel + 1) d a t =
      if a < t then
        applyRecs fuel
          (if readU16 d (JOFF + a) = REC_DATA then
            writeSeg d (recBlockNo d a (readU16 d (JOFF + a + 2)) * BLOCK_SIZE)
              BLOCK_SIZE (fun j => drByte d a (readU16 d (JOFF + a + 2)) (8 + j))
          else d)
          ((a + readU16 d (JOFF + a + 2)) % U32M) t
      else some d := rfl

theorem installLoop_zero (cap : Int) (nbu : Nat) (d : Disk) (off c : Nat) :
    installLoop cap nbu 0 d off c =
      if off < nbu ∧ (cap < 0 ∨ (c : Int) < cap) then none
      else some (d, c) := rfl

theorem installLoop_succ (cap : Int) (nbu fuel : Nat) (d : Disk) (off c : Nat) :
    installLoop cap nbu (fuel + 1) d off c =
      if off < nbu ∧ (cap < 0 ∨ (c : Int) < cap) then
        match scanTx d nbu (fuel + 1) off with
        | .outOfFuel => none
        | .noCommit => some (d, c)
        | .commit tEnd =>
          match applyRecs (fuel + 1) d off tEnd with
          | none => none
          | some d' => installLoop cap nbu fuel d' tEnd (c + 1)
      else some (d, c) := rfl

/-! ## C5 — allocator exhaustion writes nothing -/

/-- C5: if the inode allocator or the dirent allocator is exhausted,
`create_journal` returns before any write: every byte of the image — the
journal region, the header's bytes-used, every real block — is unchanged. -/
theorem C5_exhaustion_no_write (d : Disk) (name : List Nat) (t : Nat)
    (h : free_inode (blockBuf d INODE_BMAP_IDX) = none ∨
         free_dirent (blockBuf d DATA_START_IDX) = none) (i : Nat) :
    create d name t i = d i := by
  have hnone : createWrites d name t = none := by
    unfold createWrites
    rcases h with h | h
    · simp [h]
    · cases hfi : free_inode (blockBuf d INODE_BMAP_IDX) <;> simp [h, hfi]
  simp [create, hnone]

/-- witness for C5 at a concrete image whose inode bitmap is full: byte
69700 (inside the data bitmap block) is untouched by `create` -/
theorem C5_witness :
    free_inode (blockBuf dFullBmap INODE_BMAP_IDX) = none ∧
      create dFullBmap [97] 0 69700 = dFullBmap 69700 :=
  ⟨by decide,
   C5_exhaustion_no_write dFullBmap [97] 0 (Or.inl (by decide)) 69700⟩

/-! ## C1 — an incomplete trailing transaction is never applied -/

/-- C1: at any point of the install loop, if the record walk of the
candidate transaction at the current offset runs past nbytes_used without
finding a Commit record, the loop returns immediately: the disk is exactly
the disk at the transaction's start (none of that transaction's Data
records is written to its target block) and scanning stops there. -/
theorem C1_incomplete_trailing_not_applied (cap : Int) (nbu fuel off c : Nat)
    (d : Disk) (hoff : off < nbu) (hcap : cap < 0 ∨ (c : Int) < cap)
    (hscan : scanTx d nbu (fuel + 1) off = .noCommit) :
    installLoop cap nbu (fuel + 1) d off c = some (d, c) := by
  rw [installLoop_succ, if_pos ⟨hoff, hcap⟩, hscan]

/-- witness for C1: a journal holding one uncommitted Data record; the
install loop stops at it and applies nothing -/
theorem C1_witness :
    installLoop (-1) 4112 5 dNoCommit 8 0 = some (dNoCommit, 0) :=
  C1_incomplete_trailing_not_applied (-1) 4112 4 8 0 dNoCommit (by decide)
    (Or.inl (by decide)) (by decide)

/-! ## C8 — termination of the record walk -/

/-- offsets the record walk can reach from `start`: the walk advances by
the 16-bit size field read at each visited offset (uint32 arithmetic) -/
inductive ReachRec (d : Disk) (nbu start : Nat) : Nat → Prop where
  | base : ReachRec d nbu start start
  | step (a : Nat) : ReachRec d nbu start a → a < nbu →
      ReachRec d nbu start ((a + readU16 d (JOFF + a + 2)) % U32M)

/-- the scan of `install_journal` loops forever on a zero-size non-commit
record: no amount of fuel finishes it -/
theorem scanTx_dZeroRec_stuck (fuel : Nat) :
    scanTx dZeroRec 16 fuel 8 = .outOfFuel := by
  induction fuel with
  | zero => rfl
  | succ f ih => exact ih

/-- counterexample to C8: on `dZeroRec` (a journal whose used region holds
a record with type = REC_DATA and size = 0) `install_journal` never
terminates — the claim that the walk always reaches STOP for arbitrary
corrupt record bytes is false. -/
theorem C8_counterexample : ¬ installTerminates (-1) dZeroRec := by
  rintro ⟨fuel, h⟩
  apply h
  cases fuel with
  | zero => rfl
  | succ f =>
    show install (f + 1) (-1) dZeroRec = none
    unfold install
    rw [if_neg (by decide)]
    have hloop : installLoop (-1) (readU32 dZeroRec (JOFF + 4)) (f + 1)
        dZeroRec 8 0 = none := by
      have hn : readU32 dZeroRec (JOFF + 4) = 16 := by decide
      rw [hn, installLoop_succ, if_pos ⟨by decide, Or.inl (by decide)⟩,
        scanTx_dZeroRec_stuck]
    rw [hloop]

/-- C8 amended: the record walk does reach a STOP state whenever every
record it actually visits has a positive size field (and nbytes_used does
not exceed the journal region, so the uint32 offset arithmetic cannot
wrap): with fuel at least nbytes_used − start the scan never runs out. -/
theorem C8_amended_scan_terminates (d : Disk) (nbu start fuel : Nat)
    (hnbu : nbu ≤ JSIZE)
    (hsz : ∀ a, ReachRec d nbu start a → a < nbu →
      1 ≤ readU16 d (JOFF + a + 2))
    (hfuel : nbu - start ≤ fuel) :
    scanTx d nbu fuel start ≠ .outOfFuel := by
  suffices h : ∀ fuel a, ReachRec d nbu start a → nbu - a ≤ fuel →
      scanTx d nbu fuel a ≠ .outOfFuel from h fuel start .base hfuel
  intro fuel
  induction fuel with
  | zero =>
    intro a _ hle
    have hge : ¬ a < nbu := by omega
    rw [scanTx_zero, if_neg hge]
    intro hcon
    cases hcon
  | succ f ih =>
    intro a hreach hle
    by_cases hlt : a < nbu
    · have hs := hsz a hreach hlt
      have hs2 := readU16_lt d (JOFF + a + 2)
      have hmod : (a + readU16 d (JOFF + a + 2)) % U32M
          = a + readU16 d (JOFF + a + 2) := by
        apply Nat.mod_eq_of_lt
        unfold U32M
        unfold JSIZE JOURNAL_BLOCKS BLOCK_SIZE at hnbu
        omega
      rw [scanTx_succ, if_pos hlt]
      by_cases hty : readU16 d (JOFF + a) = REC_COMMIT
      · rw [if_pos hty]
        intro hcon
        cases hcon
      · rw [if_neg hty, hmod]
        apply ih
        · have hstep := ReachRec.step a hreach hlt
          rwa [hmod] at hstep
        · omega
    · rw [scanTx_succ, if_neg hlt]
      intro hcon
      cases hcon

/-- every offset the walk reaches on `dOneTx` (one committed commit-only
transaction) is 8 or 12 -/
theorem reach_dOneTx (a : Nat) (h : ReachRec dOneTx 12 8 a) :
    a = 8 ∨ a = 12 := by
  induction h with
  | base => exact Or.inl rfl
  | step a' _ hlt ih =>
    rcases ih with rfl | rfl
    · right
      decide
    · omega

/-- witness for the amended C8 on `dOneTx` -/
theorem C8_witness : scanTx dOneTx 12 4 8 ≠ .outOfFuel := by
  apply C8_amended_scan_terminates dOneTx 12 8 4 (by decide)
  · intro a h hlt
    rcases reach_dOneTx a h with rfl | rfl
    · decide
    · omega
  · decide

/-! ## C6 — idempotence of install -/

/-- the freshly rewritten journal header reads back as a valid magic -/
theorem readU32_reset_magic (d : Disk) :
    readU32 (writeSeg d JOFF 8 (headerBytes 8)) JOFF = JOURNAL_MAGIC := by
  unfold readU32
  rw [byteAt_writeSeg_inside d _ (by omega) (by omega),
      byteAt_writeSeg_inside d _ (by omega) (by omega),
      byteAt_writeSeg_inside d _ (by omega) (by omega),
      byteAt_writeSeg_inside d _ (by omega) (by omega)]
  decide

/-- the freshly rewritten journal header reads back nbytes_used = 8 -/
theorem readU32_reset_nbu (d : Disk) :
    readU32 (writeSeg d JOFF 8 (headerBytes 8)) (JOFF + 4) = 8 := by
  unfold readU32
  rw [byteAt_writeSeg_inside d _ (by omega) (by omega),
      byteAt_writeSeg_inside d _ (by omega) (by omega),
      byteAt_writeSeg_inside d _ (by omega) (by omega),
      byteAt_writeSeg_inside d _ (by omega) (by omega)]
  decide

/-- C6 amended: whenever an uncapped install run terminates, a second
uncapped install (with any fuel, here the least) returns the very same
image and applies zero transactions; and the header's bytes-used equals
the header size after the run provided the starting header had a valid
magic and bytes-used at least the header size.  (For an invalid magic or
bytes-used below 8 the run is a no-op and bytes-used keeps its old value —
the unconditional claim is refuted separately.) -/
theorem C6_amended_install_idempotent (n c : Nat) (d d' : Disk)
    (h : install n (-1) d = some (d', c)) :
    install 0 (-1) d' = some (d', 0) ∧
      (readU32 d JOFF = JOURNAL_MAGIC → 8 ≤ readU32 d (JOFF + 4) →
        readU32 d' (JOFF + 4) = 8) := by
  unfold install at h
  by_cases hc : readU32 d JOFF ≠ JOURNAL_MAGIC ∨ readU32 d (JOFF + 4) ≤ 8
  · rw [if_pos hc] at h
    obtain ⟨rfl, rfl⟩ : d = d' ∧ 0 = c := by simpa [Prod.ext_iff] using h
    refine ⟨?_, ?_⟩
    · unfold install
      rw [if_pos hc]
    · intro hm hn
      rcases hc with hc | hc
      · exact absurd hm hc
      · omega
  · rw [if_neg hc] at h
    cases hl : installLoop (-1) (readU32 d (JOFF + 4)) n d 8 0 with
    | none =>
      rw [hl] at h
      cases h
    | some p =>
      obtain ⟨d2, c2⟩ := p
      rw [hl] at h
      obtain ⟨hd', -⟩ : writeSeg d2 JOFF 8 (headerBytes 8) = d' ∧ c2 = c := by
        simpa [Prod.ext_iff] using h
      subst hd'
      refine ⟨?_, ?_⟩
      · unfold install
        rw [if_pos (Or.inr (le_of_eq (readU32_reset_nbu d2)))]
      · intro _ _
        exact readU32_reset_nbu d2

/-- counterexample to C6's unconditional reset conjunct: on an image with
a valid magic and nbytes_used = 0, install returns at once and the header's
bytes-used after the run is 0, not the header size 8. -/
theorem C6_counterexample :
    install 0 (-1) dBadNbu = some (dBadNbu, 0) ∧
      afterU32 (install 0 (-1) dBadNbu) (JOFF + 4) = some 0 ∧ (0 : Nat) ≠ 8 :=
  ⟨rfl, by decide, by decide⟩

/-- witness for the amended C6 on the formatted image -/
theorem C6_witness :
    install 0 (-1) dFmt = some (dFmt, 0) ∧ readU32 dFmt (JOFF + 4) = 8 :=
  ⟨(C6_amended_install_idempotent 0 0 dFmt dFmt rfl).1,
   (C6_amended_install_idempotent 0 0 dFmt dFmt rfl).2 (by decide) (by decide)⟩

/-! ## The shape of a successful create transaction -/

/-- when both allocators succeed, `create_journal` performs exactly these
six journal writes, in this order -/
theorem createWrites_some (d : Disk) (name : List Nat) (t : Nat)
    (idx slot : Nat)
    (hfi : free_inode (blockBuf d INODE_BMAP_IDX) = some idx)
    (hfd : free_dirent (blockBuf d DATA_START_IDX) = some slot) :
    createWrites d name t = some
      [⟨effOff d, DATA_REC_SIZE,
         dataRecBytes INODE_BMAP_IDX
           (set_bitmap (blockBuf d INODE_BMAP_IDX) idx)⟩,
       ⟨nextOff (effOff d), DATA_REC_SIZE,
         dataRecBytes DATA_BMAP_IDX (blockBuf d DATA_BMAP_IDX)⟩,
       ⟨nextOff (nextOff (effOff d)), DATA_REC_SIZE,
         dataRecBytes DATA_START_IDX
           (writeDirent (blockBuf d DATA_START_IDX) slot idx name)⟩,
       ⟨nextOff (nextOff (nextOff (effOff d))), DATA_REC_SIZE,
         dataRecBytes (INODE_START_IDX + idx / (BLOCK_SIZE / INODE_SIZE))
           (inoBufAfter d idx slot t)⟩,
       ⟨nextOff (nextOff (nextOff (nextOff (effOff d)))), COMMIT_REC_SIZE,
         commitRecBytes⟩,
       ⟨0, 8, headerBytes
         ((nextOff (nextOff (nextOff (nextOff (effOff d)))) + COMMIT_REC_SIZE)
           % U32M)⟩] := by
  simp only [createWrites]
  rw [hfi, hfd]
  rfl

/-! ## C7 — a successful create appends 4 Data records, a Commit, then the
header -/

/-- C7: every successful create appends, starting at the header's current
(effective) bytes-used, exactly four Data records in the fixed order inode
bitmap, data bitmap, root directory block, inode table block, each carrying
the entire post-mutation block image; then one Commit record; and the last
journal write of the operation is the header with bytes-used advanced past
the Commit record. -/
theorem C7_create_transaction_shape (d : Disk) (name : List Nat) (t : Nat)
    (idx slot : Nat)
    (hfi : free_inode (blockBuf d INODE_BMAP_IDX) = some idx)
    (hfd : free_dirent (blockBuf d DATA_START_IDX) = some slot) :
    createWrites d name t = some
      [⟨effOff d, DATA_REC_SIZE,
         dataRecBytes INODE_BMAP_IDX
           (set_bitmap (blockBuf d INODE_BMAP_IDX) idx)⟩,
       ⟨nextOff (effOff d), DATA_REC_SIZE,
         dataRecBytes DATA_BMAP_IDX (blockBuf d DATA_BMAP_IDX)⟩,
       ⟨nextOff (nextOff (effOff d)), DATA_REC_SIZE,
         dataRecBytes DATA_START_IDX
           (writeDirent (blockBuf d DATA_START_IDX) slot idx name)⟩,
       ⟨nextOff (nextOff (nextOff (effOff d))), DATA_REC_SIZE,
         dataRecBytes (INODE_START_IDX + idx / (BLOCK_SIZE / INODE_SIZE))
           (inoBufAfter d idx slot t)⟩,
       ⟨nextOff (nextOff (nextOff (nextOff (effOff d)))), COMMIT_REC_SIZE,
         commitRecBytes⟩,
       ⟨0, 8, headerBytes
         ((nextOff (nextOff (nextOff (nextOff (effOff d)))) + COMMIT_REC_SIZE)
           % U32M)⟩] :=
  createWrites_some d name t idx slot hfi hfd

/-- witness for C7 on the formatted image -/
theorem C7_witness :
    createWrites dFmt [97] 0 = some
      [⟨effOff dFmt, DATA_REC_SIZE,
         dataRecBytes INODE_BMAP_IDX
           (set_bitmap (blockBuf dFmt INODE_BMAP_IDX) 0)⟩,
       ⟨nextOff (effOff dFmt), DATA_REC_SIZE,
         dataRecBytes DATA_BMAP_IDX (blockBuf dFmt DATA_BMAP_IDX)⟩,
       ⟨nextOff (nextOff (effOff dFmt)), DATA_REC_SIZE,
         dataRecBytes DATA_START_IDX
           (writeDirent (blockBuf dFmt DATA_START_IDX) 0 0 [97])⟩,
       ⟨nextOff (nextOff (nextOff (effOff dFmt))), DATA_REC_SIZE,
         dataRecBytes (INODE_START_IDX + 0 / (BLOCK_SIZE / INODE_SIZE))
           (inoBufAfter dFmt 0 0 0)⟩,
       ⟨nextOff (nextOff (nextOff (nextOff (effOff dFmt)))), COMMIT_REC_SIZE,
         commitRecBytes⟩,
       ⟨0, 8, headerBytes
         ((nextOff (nextOff (nextOff (nextOff (effOff dFmt)))) + COMMIT_REC_SIZE)
           % U32M)⟩] :=
  C7_create_transaction_shape dFmt [97] 0 0 0 (by decide) (by decide)

/-! ## C2 — frame of a successful create -/

/-- a sequence of journal writes all bounded by the journal region leaves
every byte outside the journal region (blocks 1..16) unchanged -/
theorem applyJWrites_outside (ws : List JWrite) (d : Disk) (i : Nat)
    (hb : ∀ w ∈ ws, w.off + w.len ≤ JSIZE)
    (hi : i < JOFF ∨ JOFF + JSIZE ≤ i) :
    applyJWrites d ws i = d i := by
  induction ws generalizing d with
  | nil => rfl
  | cons w ws ih =>
    have hw := hb w (List.mem_cons_self w ws)
    have hrest : ∀ w' ∈ ws, w'.off + w'.len ≤ JSIZE := by
      intro w' hw'
      exact hb w' (List.mem_cons_of_mem w hw')
    show applyJWrites (applyJWrite d w) ws i = d i
    rw [ih (applyJWrite d w) hrest]
    unfold applyJWrite
    apply writeSeg_outside
    omega

/-- amended C2: a successful create writes only bytes of the journal
region (blocks 1 through 16) — every real filesystem block is untouched —
provided the transaction fits: the effective append offset plus the
transaction size (4 Data records and a Commit record, 16420 bytes) does
not exceed the journal region size.  Without that bound the claim is
false: the code never checks the journal capacity, and the fourth create
after a format overflows into the inode bitmap block (see the
counterexample). -/
theorem C2_amended_create_frame (d : Disk) (name : List Nat) (t : Nat)
    (idx slot : Nat)
    (hfi : free_inode (blockBuf d INODE_BMAP_IDX) = some idx)
    (hfd : free_dirent (blockBuf d DATA_START_IDX) = some slot)
    (hov : effOff d + (4 * DATA_REC_SIZE + COMMIT_REC_SIZE) ≤ JSIZE)
    (i : Nat) (hi : i < JOFF ∨ JOFF + JSIZE ≤ i) :
    create d name t i = d i := by
  unfold create
  rw [createWrites_some d name t idx slot hfi hfd]
  have hdr : DATA_REC_SIZE = 4104 := rfl
  have hcr : COMMIT_REC_SIZE = 4 := rfl
  have hjs : JSIZE = 65536 := rfl
  have hu : U32M = 4294967296 := rfl
  have h1 : nextOff (effOff d) = effOff d + 4104 := by
    unfold nextOff
    rw [hdr, Nat.mod_eq_of_lt (by omega)]
  have h2 : nextOff (nextOff (effOff d)) = effOff d + 8208 := by
    rw [h1]
    unfold nextOff
    rw [hdr, Nat.mod_eq_of_lt (by omega)]
  have h3 : nextOff (nextOff (nextOff (effOff d))) = effOff d + 12312 := by
    rw [h2]
    unfold nextOff
    rw [hdr, Nat.mod_eq_of_lt (by omega)]
  have h4 : nextOff (nextOff (nextOff (nextOff (effOff d)))) =
      effOff d + 16416 := by
    rw [h3]
    unfold nextOff
    rw [hdr, Nat.mod_eq_of_lt (by omega)]
  apply applyJWrites_outside _ _ _ _ hi
  intro w hw
  simp only [List.mem_cons, List.not_mem_nil, or_false] at hw
  rcases hw with rfl | rfl | rfl | rfl | rfl | rfl <;> dsimp only <;> omega

/-- counterexample to C2: starting from the formatted image, the fourth
successful create writes byte 69780 — inside the inode bitmap block
(absolute offset at least JOFF + JSIZE = 69632), a real filesystem block —
changing it from 0 to 2 (the low type byte of its Commit record). -/
theorem C2_counterexample :
    (createWrites (create (create (create dFmt [97] 0) [97] 0) [97] 0)
      [97] 0).isSome = true ∧
    (create (create (create dFmt [97] 0) [97] 0) [97] 0) 69780 = 0 ∧
    (create (create (create (create dFmt [97] 0) [97] 0) [97] 0) [97] 0)
      69780 = 2 ∧
    JOFF + JSIZE ≤ 69780 := by
  refine ⟨by decide, by decide, by decide, by decide⟩

/-- witness for the amended C2 on the formatted image: byte 69700 (inside
the inode bitmap block) is untouched by the first create -/
theorem C2_witness : create dFmt [97] 0 69700 = dFmt 69700 :=
  C2_amended_create_frame dFmt [97] 0 0 0 (by decide) (by decide) (by decide)
    69700 (Or.inr (by decide))

/-! ## C3 — growth of the root directory size -/

/-- a slot returned by the dirent allocator is one of the 128 slots -/
theorem free_dirent_lt (b : Nat → Nat) (s : Nat)
    (h : free_dirent b = some s) : s < 128 := by
  unfold free_dirent at h
  have hm := List.mem_of_find?_eq_some h
  simpa [List.mem_range] using hm

/-- amended C3: for a successful create whose allocated inode index lies
strictly between 0 and 32 (so the loaded inode-table block is the one
holding the root inode, and the new inode does not overlap it), the logged
root-inode size is exactly the maximum of its on-disk size and
(slot + 1) * sizeof(struct dirent) — monotone growth.  When the allocated
index is 0 the code first zeroes the root inode itself, so the logged size
is exactly (slot + 1) * 32 even if the previous size was larger (see the
counterexample); when the index is 32 or more, the loaded block does not
contain the root inode at all and slot 0 of table block 20 is mutated
instead. -/
theorem C3_amended_root_growth (d : Disk) (name : List Nat) (t idx slot : Nat)
    (hfi : free_inode (blockBuf d INODE_BMAP_IDX) = some idx)
    (hfd : free_dirent (blockBuf d DATA_START_IDX) = some slot)
    (hpos : 1 ≤ idx) (hlt32 : idx < 32) :
    bufU32 (inoBufAfter d idx slot t) 4 =
      max (bufU32 (blockBuf d INODE_START_IDX) 4) ((slot + 1) * DIRENT_SIZE) := by
  have hslot : slot < 128 := free_dirent_lt _ _ hfd
  have hbs : BLOCK_SIZE / INODE_SIZE = 32 := rfl
  have hdiv : idx / (BLOCK_SIZE / INODE_SIZE) = 0 := by
    rw [hbs]
    exact Nat.div_eq_of_lt hlt32
  have hmod : idx % (BLOCK_SIZE / INODE_SIZE) = idx := by
    rw [hbs]
    exact Nat.mod_eq_of_lt hlt32
  unfold inoBufAfter
  rw [hdiv, hmod, Nat.add_zero]
  have hw : ∀ j, j < 8 →
      writeInode (blockBuf d INODE_START_IDX) idx t j =
        blockBuf d INODE_START_IDX j := by
    intro j hj
    unfold writeInode
    have hc : ¬(INODE_SIZE * idx ≤ j ∧ j < INODE_SIZE * idx + INODE_SIZE) := by
      show ¬(128 * idx ≤ j ∧ j < 128 * idx + 128)
      omega
    rw [if_neg hc]
  have hbuf : bufU32 (writeInode (blockBuf d INODE_START_IDX) idx t) 4 =
      bufU32 (blockBuf d INODE_START_IDX) 4 := by
    unfold bufU32
    rw [hw 4 (by omega), hw 5 (by omega), hw 6 (by omega), hw 7 (by omega)]
  unfold growRootSize
  by_cases hg : bufU32 (writeInode (blockBuf d INODE_START_IDX) idx t) 4 <
      (slot + 1) * DIRENT_SIZE
  · rw [if_pos hg]
    have hn : (slot + 1) * DIRENT_SIZE ≤ 4096 := by
      show (slot + 1) * 32 ≤ 4096
      omega
    have hval : bufU32 (fun j => if 4 ≤ j ∧ j < 8 then
        leByte ((slot + 1) * DIRENT_SIZE) (j - 4)
        else writeInode (blockBuf d INODE_START_IDX) idx t j) 4 =
        (slot + 1) * DIRENT_SIZE := by
      set n := (slot + 1) * DIRENT_SIZE with hn'
      unfold bufU32 leByte
      norm_num
      omega
    rw [hval]
    rw [hbuf] at hg
    exact (Nat.max_eq_right (Nat.le_of_lt hg)).symm
  · rw [if_neg hg, hbuf]
    rw [hbuf] at hg
    exact (Nat.max_eq_left (Nat.not_lt.mp hg)).symm

/-- witness for the amended C3: on an image with inode 0 allocated, create
allocates inode 1 and the logged root size is max(old, 32) -/
theorem C3_witness :
    bufU32 (inoBufAfter dBit0 1 0 0) 4 =
      max (bufU32 (blockBuf dBit0 INODE_START_IDX) 4) ((0 + 1) * DIRENT_SIZE) :=
  C3_amended_root_growth dBit0 [97] 0 1 0 (by decide) (by decide) (by decide)
    (by decide)

/-- counterexample to C3: on `dRootSz` the root inode's on-disk size is
320 and the new slot needs only 32 bytes, yet after create and install the
root size is 32 — it was decreased, because the create allocated inode 0
and `memset` zeroed the root inode before the growth check. -/
theorem C3_counterexample :
    readU32 dRootSz (INODE_START_IDX * BLOCK_SIZE + 4) = 320 ∧
    afterU32 (install 9 (-1) (create dRootSz [120] 0))
      (INODE_START_IDX * BLOCK_SIZE + 4) = some 32 ∧ (32 : Nat) < 320 :=
  ⟨by decide, by decide, by decide⟩

/-! ## C9 — bitmap bit set and directory slot live -/

/-- amended C9: for every successful create whose name's first byte is
nonzero (and a byte, as C chars are), the logged inode bitmap has the
allocated bit set, the logged directory slot is live (nonzero first name
byte), and the dirent allocator run on the logged directory block can no
longer return that slot.  For the empty name the stored first byte is 0,
the slot still scans as free, and the invariant fails (counterexample). -/
theorem C9_amended_bit_and_slot_live (d : Disk) (name : List Nat)
    (t idx slot : Nat)
    (hfi : free_inode (blockBuf d INODE_BMAP_IDX) = some idx)
    (hfd : free_dirent (blockBuf d DATA_START_IDX) = some slot)
    (hname : name.getD 0 0 ≠ 0) (hbyte : name.getD 0 0 < 256) :
    Nat.testBit
      (set_bitmap (blockBuf d INODE_BMAP_IDX) idx (idx / 8)) (idx % 8) = true ∧
    writeDirent (blockBuf d DATA_START_IDX) slot idx name
      (DIRENT_SIZE * slot + 4) = name.getD 0 0 ∧
    free_dirent (writeDirent (blockBuf d DATA_START_IDX) slot idx name) ≠
      some slot := by
  have hlive : writeDirent (blockBuf d DATA_START_IDX) slot idx name
      (DIRENT_SIZE * slot + 4) = name.getD 0 0 := by
    unfold writeDirent
    rw [if_neg (by omega), if_pos ⟨by omega, by omega⟩]
    have harg : DIRENT_SIZE * slot + 4 - (DIRENT_SIZE * slot + 4) = 0 := by
      omega
    rw [harg]
    cases name with
    | nil => simp at hname
    | cons c cs =>
      have hc : c ≠ 0 := by simpa using hname
      simp [effName, List.takeWhile_cons, hc]
  refine ⟨?_, hlive, ?_⟩
  · unfold set_bitmap
    rw [if_pos rfl, Nat.testBit_or, Nat.shiftLeft_eq, one_mul,
      Nat.testBit_two_pow_self, Bool.or_true]
  · intro hcon
    have hp := List.find?_some hcon
    rw [beq_iff_eq] at hp
    rw [hlive] at hp
    exact hname hp

/-- witness for the amended C9 on the formatted image -/
theorem C9_witness :
    Nat.testBit
      (set_bitmap (blockBuf dFmt INODE_BMAP_IDX) 0 (0 / 8)) (0 % 8) = true ∧
    writeDirent (blockBuf dFmt DATA_START_IDX) 0 0 [97]
      (DIRENT_SIZE * 0 + 4) = [97].getD 0 0 ∧
    free_dirent (writeDirent (blockBuf dFmt DATA_START_IDX) 0 0 [97]) ≠
      some 0 :=
  C9_amended_bit_and_slot_live dFmt [97] 0 0 0 (by decide) (by decide)
    (by decide) (by decide)

/-- counterexample to C9: create with the empty name, then install.  The
allocated inode's bitmap bit is 1 on disk, but the directory slot's first
name byte is 0 — the slot is not live and the dirent allocator returns the
same slot as free again. -/
theorem C9_counterexample :
    afterByte (install 9 (-1) (create dFmt [] 0)) 86020 = some 0 ∧
    afterByte (install 9 (-1) (create dFmt [] 0)) 69632 = some 1 ∧
    (install 9 (-1) (create dFmt [] 0)).map
      (fun p => free_dirent (blockBuf p.1 DATA_START_IDX)) = some (some 0) :=
  ⟨by decide, by decide, by decide⟩

/-! ## C10 — name truncation and padding -/

/-- amended C10: the stored name field holds, in its first 27 bytes, the
input name truncated to 27 bytes and NUL-padded up to 27; the 28th byte of
the name field is not written at all (strncpy with count 27 over a 28-byte
field), so stale prior content of that byte survives (counterexample) —
it reads as the claim's NUL padding only on images whose free slots are
fully zeroed. -/
theorem C10_amended_name_bytes (d : Disk) (name : List Nat) (t idx slot : Nat)
    (hfi : free_inode (blockBuf d INODE_BMAP_IDX) = some idx)
    (hfd : free_dirent (blockBuf d DATA_START_IDX) = some slot) :
    (∀ j, j < 27 →
      writeDirent (blockBuf d DATA_START_IDX) slot idx name
        (DIRENT_SIZE * slot + 4 + j) = (effName name).getD j 0) ∧
    writeDirent (blockBuf d DATA_START_IDX) slot idx name
        (DIRENT_SIZE * slot + 4 + 27) =
      blockBuf d DATA_START_IDX (DIRENT_SIZE * slot + 4 + 27) := by
  constructor
  · intro j hj
    unfold writeDirent
    rw [if_neg (by omega), if_pos ⟨by omega, by omega⟩]
    congr 1
    omega
  · unfold writeDirent
    rw [if_neg (by omega), if_neg (by omega)]

/-- witness for the amended C10 on the formatted image -/
theorem C10_witness :
    writeDirent (blockBuf dFmt DATA_START_IDX) 0 0 [97]
        (DIRENT_SIZE * 0 + 4 + 0) = (effName [97]).getD 0 0 ∧
    writeDirent (blockBuf dFmt DATA_START_IDX) 0 0 [97]
        (DIRENT_SIZE * 0 + 4 + 27) =
      blockBuf dFmt DATA_START_IDX (DIRENT_SIZE * 0 + 4 + 27) :=
  ⟨(C10_amended_name_bytes dFmt [97] 0 0 0 (by decide) (by decide)).1 0
      (by decide),
   (C10_amended_name_bytes dFmt [97] 0 0 0 (by decide) (by decide)).2⟩

/-! ## C4 — two-run noninterference over the journal tail

The claim is refuted by a record-header read that straddles the bytes-used
boundary: the scan reads 4 prefix bytes at every position below
nbytes_used, so up to 3 of those bytes lie at or past nbytes_used.  The
amended statement pushes the agreement boundary 3 bytes past nbytes_used
and additionally requires that no reachable Data record targets a journal
block (an applied record that overwrites the journal mid-install can make
later reads depend on tail bytes), and that nbytes_used + 3 fits in the
journal region (otherwise uint32 offset arithmetic wraps and straddling
reads leave the journal region). -/

/-- a commit-terminated record walk on a fixed disk: from `a` the walk
advances by each record's size field until it consumes a Commit record;
`t` is the position just past that Commit record -/
inductive TxWalk (d : Disk) (nbu : Nat) : Nat → Nat → Prop where
  | commit (a : Nat) : a < nbu → readU16 d (JOFF + a) = REC_COMMIT →
      TxWalk d nbu a ((a + readU16 d (JOFF + a + 2)) % U32M)
  | step (a t : Nat) : a < nbu → readU16 d (JOFF + a) ≠ REC_COMMIT →
      TxWalk d nbu ((a + readU16 d (JOFF + a + 2)) % U32M) t →
      TxWalk d nbu a t

/-- no Data record reachable by the record walk from offset 8 targets a
block of the journal region (blocks 1..16); block 0 and blocks 17 and up
do not overlap the journal -/
def NoJournalTarget (d : Disk) (nbu : Nat) : Prop :=
  ∀ a, ReachRec d nbu 8 a → a < nbu → readU16 d (JOFF + a) = REC_DATA →
    recBlockNo d a (readU16 d (JOFF + a + 2)) = 0 ∨
      JOURNAL_BLOCK_IDX + JOURNAL_BLOCKS ≤
        recBlockNo d a (readU16 d (JOFF + a + 2))

theorem readU16_congr {d1 d2 : Disk} {o : Nat}
    (h0 : byteAt d1 o = byteAt d2 o) (h1 : byteAt d1 (o + 1) = byteAt d2 (o + 1)) :
    readU16 d1 o = readU16 d2 o := by
  unfold readU16
  rw [h0, h1]

theorem readU32_congr {d1 d2 : Disk} {o : Nat}
    (h0 : byteAt d1 o = byteAt d2 o) (h1 : byteAt d1 (o + 1) = byteAt d2 (o + 1))
    (h2 : byteAt d1 (o + 2) = byteAt d2 (o + 2))
    (h3 : byteAt d1 (o + 3) = byteAt d2 (o + 3)) :
    readU32 d1 o = readU32 d2 o := by
  unfold readU32
  rw [h0, h1, h2, h3]

/-- the record walk never runs out of positions when the current position
is at or past the used region -/
theorem applyRecs_ge (fuel : Nat) (d : Disk) {a t : Nat} (h : ¬ a < t) :
    applyRecs fuel d a t = some d := by
  cases fuel with
  | zero => rw [applyRecs_zero, if_neg h]
  | succ f => rw [applyRecs_succ, if_neg h]

/-- with nbytes_used at most 3 bytes short of the journal size, one walk
step cannot wrap the uint32 offset -/
theorem step_mod (d : Disk) {nbu a : Nat} (hn : nbu + 3 ≤ JSIZE) (ha : a < nbu) :
    (a + readU16 d (JOFF + a + 2)) % U32M = a + readU16 d (JOFF + a + 2) := by
  have h1 := readU16_lt d (JOFF + a + 2)
  have hj : JSIZE = 65536 := rfl
  apply Nat.mod_eq_of_lt
  show a + readU16 d (JOFF + a + 2) < 4294967296
  omega

/-- the source of a walk is inside the used region -/
theorem TxWalk_src_lt {d : Disk} {nbu a t : Nat} (h : TxWalk d nbu a t) :
    a < nbu := by
  cases h with
  | commit _ h1 _ => exact h1
  | step _ _ h1 _ _ => exact h1

/-- a scan that finds a commit traces a `TxWalk` -/
theorem scanTx_to_walk {d : Disk} {nbu : Nat} :
    ∀ fuel off t, scanTx d nbu fuel off = .commit t → TxWalk d nbu off t := by
  intro fuel
  induction fuel with
  | zero =>
    intro off t h
    rw [scanTx_zero] at h
    by_cases hlt : off < nbu
    · rw [if_pos hlt] at h
      cases h
    · rw [if_neg hlt] at h
      cases h
  | succ f ih =>
    intro off t h
    rw [scanTx_succ] at h
    by_cases hlt : off < nbu
    · rw [if_pos hlt] at h
      by_cases hty : readU16 d (JOFF + off) = REC_COMMIT
      · rw [if_pos hty] at h
        cases h
        exact TxWalk.commit off hlt hty
      · rw [if_neg hty] at h
        exact TxWalk.step off t hlt hty (ih _ t h)
    · rw [if_neg hlt] at h
      cases h

/-- the scan only reads the 4 prefix bytes at positions below nbytes_used,
hence only journal bytes below nbytes_used + 3: two disks agreeing there
scan identically -/
theorem scanTx_congr {d1 d2 : Disk} {nbu : Nat}
    (hj : ∀ o, o < nbu + 3 → byteAt d1 (JOFF + o) = byteAt d2 (JOFF + o)) :
    ∀ fuel off, scanTx d1 nbu fuel off = scanTx d2 nbu fuel off := by
  intro fuel
  induction fuel with
  | zero =>
    intro off
    rw [scanTx_zero, scanTx_zero]
  | succ f ih =>
    intro off
    rw [scanTx_succ, scanTx_succ]
    by_cases hlt : off < nbu
    · rw [if_pos hlt, if_pos hlt]
      have hty : readU16 d1 (JOFF + off) = readU16 d2 (JOFF + off) := by
        apply readU16_congr
        · exact hj off (by omega)
        · have h := hj (off + 1) (by omega)
          rwa [← Nat.add_assoc] at h
      have hsz : readU16 d1 (JOFF + off + 2) = readU16 d2 (JOFF + off + 2) := by
        apply readU16_congr
        · have h := hj (off + 2) (by omega)
          rwa [← Nat.add_assoc] at h
        · have h := hj (off + 3) (by omega)
          have e : JOFF + (off + 3) = JOFF + off + 2 + 1 := by omega
          rwa [e] at h
      rw [hty, hsz, ih]
    · rw [if_neg hlt, if_neg hlt]

/-- walk offsets are walk-reachable -/
theorem TxWalk_reach {d : Disk} {nbu a t : Nat} (hw : TxWalk d nbu a t)
    (hr : ReachRec d nbu 8 a) : ReachRec d nbu 8 t := by
  induction hw with
  | commit a' h1 _ => exact ReachRec.step a' hr h1
  | step a' t' h1 _ _ ih => exact ih (ReachRec.step a' hr h1)

/-- overwriting two pointwise-agreeing disks with pointwise-equal buffers
keeps them pointwise agreeing -/
theorem byteAt_writeSeg_congr {d1 d2 : Disk} {s l : Nat} {f1 f2 : Nat → Nat}
    (hf : ∀ j, f1 j = f2 j) {i : Nat} (hd : byteAt d1 i = byteAt d2 i) :
    byteAt (writeSeg d1 s l f1) i = byteAt (writeSeg d2 s l f2) i := by
  unfold byteAt writeSeg
  by_cases hc : s ≤ i ∧ i < s + l
  · rw [if_pos hc, if_pos hc, hf]
  · rw [if_neg hc, if_neg hc]
    exact hd

/-- the record buffer read by the apply loop depends only on the journal
bytes it copies -/
theorem drByte_congr {d1 d2 : Disk} {a sz : Nat}
    (h : ∀ o, a ≤ o → o < a + min sz DATA_REC_SIZE →
      byteAt d1 (JOFF + o) = byteAt d2 (JOFF + o)) :
    ∀ j, drByte d1 a sz j = drByte d2 a sz j := by
  intro j
  unfold drByte
  by_cases hc : j < min sz DATA_REC_SIZE
  · rw [if_pos hc, if_pos hc]
    have hb := h (a + j) (by omega) (by omega)
    have e : JOFF + (a + j) = JOFF + a + j := by omega
    rwa [e] at hb
  · rw [if_neg hc, if_neg hc]

/-- 16-bit reads at journal offsets below the agreement bound agree -/
theorem readU16_joff {d1 d2 : Disk} {m a : Nat}
    (h : ∀ o, o < m → byteAt d1 (JOFF + o) = byteAt d2 (JOFF + o))
    (ha : a + 1 < m) : readU16 d1 (JOFF + a) = readU16 d2 (JOFF + a) := by
  apply readU16_congr
  · exact h a (by omega)
  · have hb := h (a + 1) (by omega)
    rwa [← Nat.add_assoc] at hb

/-- 16-bit size-field reads at journal offsets below the agreement bound
agree -/
theorem readU16_joff2 {d1 d2 : Disk} {m a : Nat}
    (h : ∀ o, o < m → byteAt d1 (JOFF + o) = byteAt d2 (JOFF + o))
    (ha : a + 3 < m) : readU16 d1 (JOFF + a + 2) = readU16 d2 (JOFF + a + 2) := by
  have hb := readU16_joff h (show (a + 2) + 1 < m by omega)
  rwa [(by omega : JOFF + (a + 2) = JOFF + a + 2)] at hb

/-- lockstep of the apply loop of two install runs.  Hypotheses: the
original journals agree below nbytes_used + 3; no reachable Data record
targets a journal block; the current disks still carry the original
journal regions and agree everywhere outside the journal tail; the walk
of the current transaction is known on the original first journal.
Conclusion: the two apply loops run out of fuel together, or both finish
with the journal regions still original and agreement outside the tail
preserved. -/
theorem applyRecs_lockstep (dA0 dB0 : Disk) (nbu : Nat)
    (hBound : nbu + 3 ≤ JSIZE)
    (hAlias : NoJournalTarget dA0 nbu)
    (hj0 : ∀ o, o < nbu + 3 → byteAt dA0 (JOFF + o) = byteAt dB0 (JOFF + o)) :
    ∀ fuel a t dA dB, TxWalk dA0 nbu a t → ReachRec dA0 nbu 8 a →
      (∀ o, o < JSIZE → byteAt dA (JOFF + o) = byteAt dA0 (JOFF + o)) →
      (∀ o, o < JSIZE → byteAt dB (JOFF + o) = byteAt dB0 (JOFF + o)) →
      (∀ i, i < JOFF + (nbu + 3) ∨ JOFF + JSIZE ≤ i →
        byteAt dA i = byteAt dB i) →
      (applyRecs fuel dA a t = none ∧ applyRecs fuel dB a t = none) ∨
      (∃ dA' dB', applyRecs fuel dA a t = some dA' ∧
        applyRecs fuel dB a t = some dB' ∧
        (∀ o, o < JSIZE → byteAt dA' (JOFF + o) = byteAt dA0 (JOFF + o)) ∧
        (∀ o, o < JSIZE → byteAt dB' (JOFF + o) = byteAt dB0 (JOFF + o)) ∧
        (∀ i, i < JOFF + (nbu + 3) ∨ JOFF + JSIZE ≤ i →
          byteAt dA' i = byteAt dB' i)) := by
  have hjoff : JOFF = 4096 := rfl
  have hjs : JSIZE = 65536 := rfl
  have hbs : BLOCK_SIZE = 4096 := rfl
  intro fuel
  induction fuel with
  | zero =>
    intro a t dA dB hw hr hJA hJB hOut
    by_cases hlt : a < t
    · left
      constructor <;> rw [applyRecs_zero, if_pos hlt]
    · right
      exact ⟨dA, dB, applyRecs_ge 0 dA hlt, applyRecs_ge 0 dB hlt,
        hJA, hJB, hOut⟩
  | succ f ih =>
    intro a t dA dB hw hr hJA hJB hOut
    by_cases hlt : a < t
    case neg =>
      right
      exact ⟨dA, dB, applyRecs_ge _ dA hlt, applyRecs_ge _ dB hlt,
        hJA, hJB, hOut⟩
    case pos =>
    have ha : a < nbu := TxWalk_src_lt hw
    have htyA : readU16 dA (JOFF + a) = readU16 dA0 (JOFF + a) :=
      readU16_joff hJA (by omega)
    have hszA : readU16 dA (JOFF + a + 2) = readU16 dA0 (JOFF + a + 2) :=
      readU16_joff2 hJA (by omega)
    have htyB : readU16 dB (JOFF + a) = readU16 dA0 (JOFF + a) :=
      (readU16_joff hJB (by omega)).trans
        (readU16_joff hj0 (by omega)).symm
    have hszB : readU16 dB (JOFF + a + 2) = readU16 dA0 (JOFF + a + 2) :=
      (readU16_joff2 hJB (by omega)).trans
        (readU16_joff2 hj0 (by omega)).symm
    cases hw with
    | commit a hca hty =>
      right
      refine ⟨dA, dB, ?_, ?_, hJA, hJB, hOut⟩
      · rw [applyRecs_succ, if_pos hlt, if_neg (by rw [htyA, hty]; decide),
          hszA]
        exact applyRecs_ge f _ (lt_irrefl _)
      · rw [applyRecs_succ, if_pos hlt, if_neg (by rw [htyB, hty]; decide),
          hszB]
        exact applyRecs_ge f _ (lt_irrefl _)
    | step a t hca hty htail =>
      have ha'lt := TxWalk_src_lt htail
      have hmod := step_mod dA0 hBound hca
      have hext : a + readU16 dA0 (JOFF + a + 2) < nbu := by
        rw [hmod] at ha'lt
        exact ha'lt
      have hr' : ReachRec dA0 nbu 8
          ((a + readU16 dA0 (JOFF + a + 2)) % U32M) :=
        ReachRec.step a hr hca
      by_cases hdata : readU16 dA0 (JOFF + a) = REC_DATA
      case neg =>
        have hAeq : applyRecs (f + 1) dA a t =
            applyRecs f dA ((a + readU16 dA0 (JOFF + a + 2)) % U32M) t := by
          rw [applyRecs_succ, if_pos hlt, hszA,
            if_neg (by rw [htyA]; exact hdata)]
        have hBeq : applyRecs (f + 1) dB a t =
            applyRecs f dB ((a + readU16 dA0 (JOFF + a + 2)) % U32M) t := by
          rw [applyRecs_succ, if_pos hlt, hszB,
            if_neg (by rw [htyB]; exact hdata)]
        rw [hAeq, hBeq]
        exact ih _ t dA dB htail hr' hJA hJB hOut
      case pos =>
        have hviewA : ∀ o, o < nbu + 3 →
            byteAt dA (JOFF + o) = byteAt dA0 (JOFF + o) := by
          intro o ho
          exact hJA o (by omega)
        have hviewB : ∀ o, o < nbu + 3 →
            byteAt dB (JOFF + o) = byteAt dA0 (JOFF + o) := by
          intro o ho
          exact (hJB o (by omega)).trans (hj0 o ho).symm
        have hcopyA : ∀ j, drByte dA a (readU16 dA0 (JOFF + a + 2)) j =
            drByte dA0 a (readU16 dA0 (JOFF + a + 2)) j := by
          apply drByte_congr
          intro o ho1 ho2
          have hmin : min (readU16 dA0 (JOFF + a + 2)) DATA_REC_SIZE ≤
              readU16 dA0 (JOFF + a + 2) := Nat.min_le_left _ _
          exact hviewA o (by omega)
        have hcopyB : ∀ j, drByte dB a (readU16 dA0 (JOFF + a + 2)) j =
            drByte dA0 a (readU16 dA0 (JOFF + a + 2)) j := by
          apply drByte_congr
          intro o ho1 ho2
          have hmin : min (readU16 dA0 (JOFF + a + 2)) DATA_REC_SIZE ≤
              readU16 dA0 (JOFF + a + 2) := Nat.min_le_left _ _
          exact hviewB o (by omega)
        have hbnoA : recBlockNo dA a (readU16 dA0 (JOFF + a + 2)) =
            recBlockNo dA0 a (readU16 dA0 (JOFF + a + 2)) := by
          unfold recBlockNo bufU32
          rw [hcopyA 4, hcopyA 5, hcopyA 6, hcopyA 7]
        have hbnoB : recBlockNo dB a (readU16 dA0 (JOFF + a + 2)) =
            recBlockNo dA0 a (readU16 dA0 (JOFF + a + 2)) := by
          unfold recBlockNo bufU32
          rw [hcopyB 4, hcopyB 5, hcopyB 6, hcopyB 7]
        have halias := hAlias a hr hca hdata
        have hdisj : ∀ o, o < JSIZE →
            JOFF + o <
              recBlockNo dA0 a (readU16 dA0 (JOFF + a + 2)) * BLOCK_SIZE ∨
            recBlockNo dA0 a (readU16 dA0 (JOFF + a + 2)) * BLOCK_SIZE +
              BLOCK_SIZE ≤ JOFF + o := by
          intro o ho
          rcases halias with h0 | h17
          · right
            rw [h0]
            omega
          · left
            have hm := Nat.mul_le_mul_right BLOCK_SIZE h17
            have h69 : (JOURNAL_BLOCK_IDX + JOURNAL_BLOCKS) * BLOCK_SIZE =
              69632 := rfl
            omega
        have hAeq : applyRecs (f + 1) dA a t =
            applyRecs f
              (writeSeg dA
                (recBlockNo dA0 a (readU16 dA0 (JOFF + a + 2)) * BLOCK_SIZE)
                BLOCK_SIZE
                (fun j => drByte dA a (readU16 dA0 (JOFF + a + 2)) (8 + j)))
              ((a + readU16 dA0 (JOFF + a + 2)) % U32M) t := by
          rw [applyRecs_succ, if_pos hlt, hszA,
            if_pos (by rw [htyA]; exact hdata), hbnoA]
        have hBeq : applyRecs (f + 1) dB a t =
            applyRecs f
              (writeSeg dB
                (recBlockNo dA0 a (readU16 dA0 (JOFF + a + 2)) * BLOCK_SIZE)
                BLOCK_SIZE
                (fun j => drByte dB a (readU16 dA0 (JOFF + a + 2)) (8 + j)))
              ((a + readU16 dA0 (JOFF + a + 2)) % U32M) t := by
          rw [applyRecs_succ, if_pos hlt, hszB,
            if_pos (by rw [htyB]; exact hdata), hbnoB]
        rw [hAeq, hBeq]
        apply ih _ t _ _ htail hr'
        · intro o ho
          rw [byteAt_writeSeg_outside _ _ (hdisj o ho)]
          exact hJA o ho
        · intro o ho
          rw [byteAt_writeSeg_outside _ _ (hdisj o ho)]
          exact hJB o ho
        · intro i hi
          apply byteAt_writeSeg_congr
          · intro j
            rw [hcopyA (8 + j), ← hcopyB (8 + j)]
          · exact hOut i hi

/-- lockstep of the outer install loop of two runs, with the same
invariants as `applyRecs_lockstep` -/
theorem installLoop_lockstep (dA0 dB0 : Disk) (nbu : Nat) (cap : Int)
    (hBound : nbu + 3 ≤ JSIZE)
    (hAlias : NoJournalTarget dA0 nbu)
    (hj0 : ∀ o, o < nbu + 3 → byteAt dA0 (JOFF + o) = byteAt dB0 (JOFF + o)) :
    ∀ fuel off c dA dB, ReachRec dA0 nbu 8 off →
      (∀ o, o < JSIZE → byteAt dA (JOFF + o) = byteAt dA0 (JOFF + o)) →
      (∀ o, o < JSIZE → byteAt dB (JOFF + o) = byteAt dB0 (JOFF + o)) →
      (∀ i, i < JOFF + (nbu + 3) ∨ JOFF + JSIZE ≤ i →
        byteAt dA i = byteAt dB i) →
      (installLoop cap nbu fuel dA off c = none ∧
        installLoop cap nbu fuel dB off c = none) ∨
      (∃ dA' dB' c', installLoop cap nbu fuel dA off c = some (dA', c') ∧
        installLoop cap nbu fuel dB off c = some (dB', c') ∧
        (∀ i, i < JOFF + (nbu + 3) ∨ JOFF + JSIZE ≤ i →
          byteAt dA' i = byteAt dB' i)) := by
  intro fuel
  induction fuel with
  | zero =>
    intro off c dA dB hr hJA hJB hOut
    by_cases hc : off < nbu ∧ (cap < 0 ∨ (c : Int) < cap)
    · left
      constructor <;> rw [installLoop_zero, if_pos hc]
    · right
      refine ⟨dA, dB, c, ?_, ?_, hOut⟩ <;> rw [installLoop_zero, if_neg hc]
  | succ f ih =>
    intro off c dA dB hr hJA hJB hOut
    by_cases hc : off < nbu ∧ (cap < 0 ∨ (c : Int) < cap)
    case neg =>
      right
      refine ⟨dA, dB, c, ?_, ?_, hOut⟩ <;> rw [installLoop_succ, if_neg hc]
    case pos =>
    have hAB : ∀ o, o < nbu + 3 →
        byteAt dA (JOFF + o) = byteAt dB (JOFF + o) := by
      intro o ho
      exact ((hJA o (by omega)).trans (hj0 o ho)).trans (hJB o (by omega)).symm
    have hA0 : ∀ o, o < nbu + 3 →
        byteAt dA (JOFF + o) = byteAt dA0 (JOFF + o) := by
      intro o ho
      exact hJA o (by omega)
    have hscanAB := scanTx_congr hAB (f + 1) off
    have hscanA0 := scanTx_congr hA0 (f + 1) off
    rw [installLoop_succ cap nbu f dA off c, installLoop_succ cap nbu f dB off c,
      if_pos hc, if_pos hc]
    cases hs : scanTx dA nbu (f + 1) off with
    | outOfFuel =>
      left
      rw [hscanAB.symm.trans hs]
      exact ⟨rfl, rfl⟩
    | noCommit =>
      right
      rw [hscanAB.symm.trans hs]
      exact ⟨dA, dB, c, rfl, rfl, hOut⟩
    | commit tEnd =>
      rw [hscanAB.symm.trans hs]
      dsimp only
      have hwalk : TxWalk dA0 nbu off tEnd :=
        scanTx_to_walk _ _ _ (hscanA0.symm.trans hs)
      have happly := applyRecs_lockstep dA0 dB0 nbu hBound hAlias hj0
        (f + 1) off tEnd dA dB hwalk hr hJA hJB hOut
      rcases happly with ⟨hn1, hn2⟩ | ⟨dA2, dB2, he1, he2, hJA2, hJB2, hOut2⟩
      · left
        rw [hn1, hn2]
        exact ⟨rfl, rfl⟩
      · rw [he1, he2]
        have hr2 : ReachRec dA0 nbu 8 tEnd := TxWalk_reach hwalk hr
        exact ih tEnd (c + 1) dA2 dB2 hr2 hJA2 hJB2 hOut2

/-- C4 amended: two images that agree on the journal header, on every byte
at journal offsets below bytes-used + 3 (record-prefix reads straddle the
bytes-used boundary by up to 3 bytes), and everywhere outside the journal
region, produce identical install results — same transaction count and
identical bytes on every real block and on the final header — provided
bytes-used + 3 fits in the journal region and no reachable Data record
targets a journal block.  As stated (agreement only below bytes-used) the
claim is false: see the counterexample, where a commit-record type field
straddling the boundary makes one run apply a Data record the other run
never applies. -/
theorem C4_amended_noninterference (fuel : Nat) (cap : Int) (dA dB : Disk)
    (hHdr : ∀ k, k < 8 → byteAt dA (JOFF + k) = byteAt dB (JOFF + k))
    (hTail : ∀ i, i < JOFF + (readU32 dA (JOFF + 4) + 3) ∨ JOFF + JSIZE ≤ i →
      byteAt dA i = byteAt dB i)
    (hBound : readU32 dA (JOFF + 4) + 3 ≤ JSIZE)
    (hAlias : NoJournalTarget dA (readU32 dA (JOFF + 4))) :
    (install fuel cap dA = none ∧ install fuel cap dB = none) ∨
    (∃ dA' dB' c, install fuel cap dA = some (dA', c) ∧
      install fuel cap dB = some (dB', c) ∧
      ∀ i, i < JOFF + (readU32 dA (JOFF + 4) + 3) ∨ JOFF + JSIZE ≤ i →
        byteAt dA' i = byteAt dB' i) := by
  have h0 := hHdr 0 (by omega)
  rw [Nat.add_zero] at h0
  have hmagic : readU32 dB JOFF = readU32 dA JOFF :=
    (readU32_congr h0 (hHdr 1 (by omega)) (hHdr 2 (by omega))
      (hHdr 3 (by omega))).symm
  have h5 := hHdr 5 (by omega)
  have h6 := hHdr 6 (by omega)
  have h7 := hHdr 7 (by omega)
  rw [(by omega : JOFF + 5 = JOFF + 4 + 1)] at h5
  rw [(by omega : JOFF + 6 = JOFF + 4 + 2)] at h6
  rw [(by omega : JOFF + 7 = JOFF + 4 + 3)] at h7
  have hnbu : readU32 dB (JOFF + 4) = readU32 dA (JOFF + 4) :=
    (readU32_congr (hHdr 4 (by omega)) h5 h6 h7).symm
  unfold install
  rw [hmagic, hnbu]
  by_cases hcnd : readU32 dA JOFF ≠ JOURNAL_MAGIC ∨ readU32 dA (JOFF + 4) ≤ 8
  · rw [if_pos hcnd, if_pos hcnd]
    right
    exact ⟨dA, dB, 0, rfl, rfl, hTail⟩
  · rw [if_neg hcnd, if_neg hcnd]
    have hloop := installLoop_lockstep dA dB (readU32 dA (JOFF + 4)) cap
      hBound hAlias (fun o ho => hTail (JOFF + o) (Or.inl (by omega)))
      fuel 8 0 dA dB ReachRec.base (fun _ _ => rfl) (fun _ _ => rfl) hTail
    rcases hloop with ⟨h1, h2⟩ | ⟨dA2, dB2, c2, h1, h2, hOut2⟩
    · left
      rw [h1, h2]
      exact ⟨rfl, rfl⟩
    · right
      refine ⟨writeSeg dA2 JOFF 8 (headerBytes 8),
        writeSeg dB2 JOFF 8 (headerBytes 8), c2, ?_, ?_, ?_⟩
      · rw [h1]
      · rw [h2]
      · intro i hi
        exact byteAt_writeSeg_congr (fun _ => rfl) (hOut2 i hi)

/-- counterexample to C4: `dStraddleA` and `dStraddleB` agree on the
header, on every journal byte below bytes-used = 21, and everywhere
outside the journal region; they differ only at journal offset 21 (at
bytes-used).  Yet install applies the Data record targeting block 30 on
the first image and not on the second: byte 122880 (block 30, a real
data block) ends as 0 in one run and 7 in the other.  The straddling
read: the commit record's 16-bit type field sits at offsets 20..21. -/
theorem C4_counterexample :
    (∀ k, k < 8 → byteAt dStraddleA (JOFF + k) = byteAt dStraddleB (JOFF + k)) ∧
    (∀ o, o < readU32 dStraddleA (JOFF + 4) →
      byteAt dStraddleA (JOFF + o) = byteAt dStraddleB (JOFF + o)) ∧
    (∀ i, i < JOFF ∨ JOFF + JSIZE ≤ i → dStraddleA i = dStraddleB i) ∧
    readU32 dStraddleA (JOFF + 4) = 21 ∧
    afterByte (install 5 (-1) dStraddleA) 122880 = some 0 ∧
    afterByte (install 5 (-1) dStraddleB) 122880 = some 7 ∧
    JOFF + JSIZE ≤ 122880 := by
  refine ⟨by decide, ?_, ?_, by decide, by decide, by decide, by decide⟩
  · have h21 : readU32 dStraddleA (JOFF + 4) = 21 := by decide
    rw [h21]
    decide
  · intro i hi
    have hJ : JOFF = 4096 := rfl
    have hS : JSIZE = 65536 := rfl
    unfold dStraddleB
    rw [if_neg (by omega)]

/-- no Data record is reachable on the commit-only journal `dOneTx` -/
theorem dOneTx_noTarget : NoJournalTarget dOneTx 12 := by
  intro a hr hlt hty
  rcases reach_dOneTx a hr with rfl | rfl
  · have h2 : readU16 dOneTx (JOFF + 8) = 2 := by decide
    rw [h2] at hty
    exact absurd hty (by decide)
  · omega

/-- witness for the amended C4 on the one-transaction journal -/
theorem C4_witness :
    (install 5 (-1) dOneTx = none ∧ install 5 (-1) dOneTx = none) ∨
    (∃ dA' dB' c, install 5 (-1) dOneTx = some (dA', c) ∧
      install 5 (-1) dOneTx = some (dB', c) ∧
      ∀ i, i < JOFF + (readU32 dOneTx (JOFF + 4) + 3) ∨ JOFF + JSIZE ≤ i →
        byteAt dA' i = byteAt dB' i) :=
  C4_amended_noninterference 5 (-1) dOneTx dOneTx (fun _ _ => rfl)
    (fun _ _ => rfl) (by decide)
    (by
      have h12 : readU32 dOneTx (JOFF + 4) = 12 := by decide
      rw [h12]
      exact dOneTx_noTarget)

/-- counterexample to C10: on `dStale` the free slot's name field holds a
stale nonzero byte at index 27.  After create("x") and install, the
on-disk directory slot reads name[0] = 'x' but name[27] = 9: the name
field was not NUL-padded to its full fixed length and a byte of prior slot
content survived. -/
theorem C10_counterexample :
    afterByte (install 9 (-1) (create dStale [120] 0)) 86047 = some 9 ∧
    afterByte (install 9 (-1) (create dStale [120] 0)) 86020 = some 120 ∧
    (9 : Nat) ≠ 0 :=
  ⟨by decide, by decide, by decide⟩

end Vsfs
